import Mathlib

/-!
Verification development for the divine-generator repository.

Shallow embedding of `build/build_lexicon.py` and the index-handling core of
`src/divine.py`. Python strings are modelled as `List Char`; machine text files
as lists of their characters (input files) or lists of lines (extras file,
lexicon file). The Unicode data consulted by the Python code
(`unicodedata.normalize("NFKD", ·)`, `unicodedata.combining`, `str.isalpha`,
`str.lower`) is modelled by explicit finite tables covering ASCII, the Latin-1
letters and one compatibility ligature; characters outside the modelled
repertoire behave as unclassified (no decomposition, not alphabetic, fixed by
lowercasing), which is the same shape of behaviour the real tables give to
unlisted code points. Python's Mersenne-Twister stream behind
`random.Random(seed)` is modelled by a deterministic 32-bit LCG stream driving
the same Fisher-Yates shuffle loop as `random.shuffle`; the claims under
verification depend only on determinism, the ranges of the drawn values and
the shuffle being a permutation, never on the exact stream. `sys.exit` and the
file write are modelled by an `Except` result: an error value models the
process exiting with the corresponding code before the output file is written.
-/

namespace DG

/-- Python strings are modelled as lists of characters. -/
abbrev PyStr := List Char

/-- A normalized lexicon token (one output line). -/
abbrev Token := List Char

/- ## Modelled pseudo-random generator (`random.Random(seed)`) -/

/-- Modelled `random.Random(seed)`: the seed determines the initial state of
the generator (a natural number). -/
def mkRng (seed : Nat) : Nat := seed % 4294967296

/-- One step of the modelled generator stream (32-bit LCG). -/
def rngNext (g : Nat) : Nat := (g * 1664525 + 1013904223) % 4294967296

/-- Modelled `_randbelow n`: a value in `[0, n)` (for `n > 0`) plus the new state. -/
def randBelow (n : Nat) (g : Nat) : Nat × Nat :=
  let g2 := rngNext g
  (g2 % n, g2)

/-- Modelled `random.randint a b`: a value in `[a, b]` plus the new state. -/
def randint (a b : Nat) (g : Nat) : Nat × Nat :=
  let r := randBelow (b + 1 - a) g
  (a + r.1, r.2)

/- ## Modelled Unicode character data -/

/-- Combining grave accent U+0300. -/
def cGrave : Char := Char.ofNat 768
/-- Combining acute accent U+0301. -/
def cAcute : Char := Char.ofNat 769
/-- Combining circumflex U+0302. -/
def cCirc : Char := Char.ofNat 770
/-- Combining tilde U+0303. -/
def cTilde : Char := Char.ofNat 771
/-- Combining diaeresis U+0308. -/
def cDiaer : Char := Char.ofNat 776
/-- Combining ring above U+030A. -/
def cRing : Char := Char.ofNat 778
/-- Combining cedilla U+0327. -/
def cCedil : Char := Char.ofNat 807
/-- Latin small ligature fi U+FB01 (has a compatibility, not canonical,
decomposition to `fi`). -/
def ligFi : Char := Char.ofNat 64257

/-- Modelled `unicodedata.combining ch != 0`: the combining-mark block. -/
def isCombining (c : Char) : Bool := 768 ≤ c.toNat && c.toNat ≤ 879

/-- Canonical decompositions of the modelled repertoire: the precomposed
Latin-1 letters decompose into an ASCII base letter plus a combining mark. -/
def canonicalTable : List (Char × List Char) :=
  [('À', ['A', cGrave]), ('Á', ['A', cAcute]), ('Â', ['A', cCirc]),
   ('Ã', ['A', cTilde]), ('Ä', ['A', cDiaer]), ('Å', ['A', cRing]),
   ('Ç', ['C', cCedil]),
   ('È', ['E', cGrave]), ('É', ['E', cAcute]), ('Ê', ['E', cCirc]),
   ('Ë', ['E', cDiaer]),
   ('Ì', ['I', cGrave]), ('Í', ['I', cAcute]), ('Î', ['I', cCirc]),
   ('Ï', ['I', cDiaer]),
   ('Ñ', ['N', cTilde]),
   ('Ò', ['O', cGrave]), ('Ó', ['O', cAcute]), ('Ô', ['O', cCirc]),
   ('Õ', ['O', cTilde]), ('Ö', ['O', cDiaer]),
   ('Ù', ['U', cGrave]), ('Ú', ['U', cAcute]), ('Û', ['U', cCirc]),
   ('Ü', ['U', cDiaer]),
   ('Ý', ['Y', cAcute]),
   ('à', ['a', cGrave]), ('á', ['a', cAcute]), ('â', ['a', cCirc]),
   ('ã', ['a', cTilde]), ('ä', ['a', cDiaer]), ('å', ['a', cRing]),
   ('ç', ['c', cCedil]),
   ('è', ['e', cGrave]), ('é', ['e', cAcute]), ('ê', ['e', cCirc]),
   ('ë', ['e', cDiaer]),
   ('ì', ['i', cGrave]), ('í', ['i', cAcute]), ('î', ['i', cCirc]),
   ('ï', ['i', cDiaer]),
   ('ñ', ['n', cTilde]),
   ('ò', ['o', cGrave]), ('ó', ['o', cAcute]), ('ô', ['o', cCirc]),
   ('õ', ['o', cTilde]), ('ö', ['o', cDiaer]),
   ('ù', ['u', cGrave]), ('ú', ['u', cAcute]), ('û', ['u', cCirc]),
   ('ü', ['u', cDiaer]),
   ('ý', ['y', cAcute]), ('ÿ', ['y', cDiaer])]

/-- NFKD decompositions of the modelled repertoire: every canonical
decomposition plus the compatibility decomposition of the fi ligature. -/
def nfkdTable : List (Char × List Char) := canonicalTable ++ [(ligFi, ['f', 'i'])]

/-- Modelled per-character NFKD decomposition (identity off the table). -/
def nfkdChar (c : Char) : List Char :=
  match nfkdTable.lookup c with
  | some l => l
  | none => [c]

/-- Modelled per-character canonical (NFD) decomposition (identity off the
table). Used only to state the spec's words for comparison with the code. -/
def canonicalChar (c : Char) : List Char :=
  match canonicalTable.lookup c with
  | some l => l
  | none => [c]

/-- Modelled `str.isalpha` per character: ASCII letters, Latin-1 letters
(excluding the multiplication and division signs), and the fi ligature. -/
def pyIsAlpha (c : Char) : Bool :=
  let t := c.toNat
  (65 ≤ t && t ≤ 90) || (97 ≤ t && t ≤ 122) ||
  (192 ≤ t && t ≤ 255 && t ≠ 215 && t ≠ 247) || t == 64257

/-- Modelled `str.isdigit` per character (ASCII digits). -/
def pyIsDigit (c : Char) : Bool :=
  48 ≤ c.toNat && c.toNat ≤ 57

/-- Modelled Python whitespace (the characters `str.strip` removes). -/
def pyIsSpace (c : Char) : Bool :=
  c == ' ' || c == '\t' || c == '\n' || c.toNat == 13 || c.toNat == 11 || c.toNat == 12

/-- Lowercasing table: ASCII capitals and Latin-1 capitals map to their
lowercase forms; every other modelled character is already caseless or
lowercase. -/
def lowerTable : List (Char × Char) :=
  [('A', 'a'), ('B', 'b'), ('C', 'c'), ('D', 'd'), ('E', 'e'), ('F', 'f'),
   ('G', 'g'), ('H', 'h'), ('I', 'i'), ('J', 'j'), ('K', 'k'), ('L', 'l'),
   ('M', 'm'), ('N', 'n'), ('O', 'o'), ('P', 'p'), ('Q', 'q'), ('R', 'r'),
   ('S', 's'), ('T', 't'), ('U', 'u'), ('V', 'v'), ('W', 'w'), ('X', 'x'),
   ('Y', 'y'), ('Z', 'z'),
   ('À', 'à'), ('Á', 'á'), ('Â', 'â'), ('Ã', 'ã'), ('Ä', 'ä'), ('Å', 'å'),
   ('Æ', 'æ'), ('Ç', 'ç'), ('È', 'è'), ('É', 'é'), ('Ê', 'ê'), ('Ë', 'ë'),
   ('Ì', 'ì'), ('Í', 'í'), ('Î', 'î'), ('Ï', 'ï'), ('Ð', 'ð'), ('Ñ', 'ñ'),
   ('Ò', 'ò'), ('Ó', 'ó'), ('Ô', 'ô'), ('Õ', 'õ'), ('Ö', 'ö'), ('Ø', 'ø'),
   ('Ù', 'ù'), ('Ú', 'ú'), ('Û', 'û'), ('Ü', 'ü'), ('Ý', 'ý'), ('Þ', 'þ')]

/-- Modelled `str.lower` per character. -/
def pyToLower (c : Char) : Char :=
  match lowerTable.lookup c with
  | some d => d
  | none => c

/-- Modelled `str.lower` on a string (character-wise on the modelled
repertoire, where no case mapping changes length). -/
def pyLower (s : PyStr) : PyStr := s.map pyToLower

/-- Modelled `str.strip`: drop whitespace from both ends. -/
def pyStrip (s : PyStr) : PyStr :=
  ((s.dropWhile pyIsSpace).reverse.dropWhile pyIsSpace).reverse

/- ## `build_lexicon.py`: normalization -/

/-- Embeds `_strip_accents`: NFKD-decompose, then drop all combining marks. -/
def stripAccents (s : PyStr) : PyStr :=
  (s.flatMap nfkdChar).filter (fun ch => !(isCombining ch))

/-- Embeds `_keep_char`: allow letters; optionally allow hyphen. -/
def keepChar (ch : Char) (keepHyphens : Bool) : Bool :=
  if pyIsAlpha ch then true
  else if keepHyphens && ch == '-' then true
  else false

/-- Embeds `normalize_token`: strip accents, keep letters (and hyphens if
allowed), lowercase. -/
def normalize_token (tok : PyStr) (keepHyphens : Bool) : PyStr :=
  let s := stripAccents tok
  let s2 := s.filter (fun ch => keepChar ch keepHyphens)
  pyLower s2

/-- Modelled from the spec: the Normalizer as §4.1 words it, with step (a)
being *canonical* decomposition (the code's `_strip_accents` instead performs
NFKD, a compatibility decomposition). Only used to compare the spec's wording
against the code. -/
def normalize_token_canonical (tok : PyStr) (keepHyphens : Bool) : PyStr :=
  let s := (tok.flatMap canonicalChar).filter (fun ch => !(isCombining ch))
  let s2 := s.filter (fun ch => keepChar ch keepHyphens)
  pyLower s2

/- ## `build_lexicon.py`: tokenization -/

/-- A character the regex `[^\w'-]+` does *not* split on: word characters
(letters, digits, underscore), apostrophes and hyphens. -/
def isTokChar (c : Char) : Bool :=
  pyIsAlpha c || pyIsDigit c || c == '_' || c.toNat == 39 || c == '-'

/-- Splitting loop behind `tokenize_text`: cut the text at every character the
regex boundary matches (empty fragments are produced between adjacent
boundary characters, exactly as `re.split` produces them). -/
def tokenizeGo : List Char → List Char → List (List Char)
  | [], cur => [cur.reverse]
  | c :: rest, cur =>
    if isTokChar c then tokenizeGo rest (c :: cur)
    else cur.reverse :: tokenizeGo rest []

/-- Embeds `tokenize_text`: split on non-`[\w'-]` boundaries, drop empties. -/
def tokenize_text (text : PyStr) : List PyStr :=
  (tokenizeGo text []).filter (fun t => !t.isEmpty)

/- ## `build_lexicon.py`: configuration and pipeline -/

/-- The configuration fixed for one build run (the CLI flags; CLI integers are
modelled as naturals). -/
structure Config where
  keepHyphens : Bool
  minLen : Nat
  maxLen : Nat
  target : Option Nat
  seed : Nat
  allowDuplicates : Bool
  deriving DecidableEq, Repr

/-- The post-filter applied to each normalized token in `build_lexicon`'s
reading loop: non-empty, contains a letter, length within bounds. -/
def passes (cfg : Config) (t : PyStr) : Bool :=
  !t.isEmpty && t.any pyIsAlpha && decide (cfg.minLen ≤ t.length) &&
    decide (t.length ≤ cfg.maxLen)

/-- The normalized tokens one input file contributes, in order of appearance
(before de-duplication). -/
def fileTokens (cfg : Config) (text : PyStr) : List Token :=
  (tokenize_text text).filterMap (fun raw =>
    let norm := normalize_token raw cfg.keepHyphens
    if passes cfg norm then some norm else none)

/-- One `seen.setdefault` step of the ordered de-duplication: append the token
if and only if it is not already present. -/
def insertUnique (seen : List Token) (w : Token) : List Token :=
  if w ∈ seen then seen else seen ++ [w]

/-- The unique corpus tokens in first-occurrence order (the `seen` ordered
dictionary after the reading loop), given the resolved files' contents in
resolution order. -/
def corpusUnique (cfg : Config) (files : List PyStr) : List Token :=
  files.foldl (fun seen txt => (fileTokens cfg txt).foldl insertUnique seen) []

/-- Embeds `load_extras` on the lines of the extras file: strip each line,
skip empties, normalize, and apply the same post-filter as corpus tokens. -/
def load_extras (cfg : Config) (lines : List PyStr) : List Token :=
  lines.filterMap (fun line =>
    let t := pyStrip line
    if t.isEmpty then none
    else
      let n := normalize_token t cfg.keepHyphens
      if passes cfg n then some n else none)

/-- The unique token sequence after the corpus-then-extras merge (the value of
`base_words` just before the shuffle). `none` models no `--extras` flag. -/
def uniqueSeq (cfg : Config) (files : List PyStr) (extras : Option (List PyStr)) :
    List Token :=
  let base0 := corpusUnique cfg files
  match extras with
  | none => base0
  | some ls => (load_extras cfg ls).foldl insertUnique base0

/- ## Modelled `random.shuffle` (Fisher-Yates over the modelled stream) -/

/-- Swap the elements at positions `i` and `j` (identity out of bounds; the
shuffle only ever calls it in bounds). -/
def lswap (l : List α) (i j : Nat) : List α :=
  if h : i < l.length ∧ j < l.length then
    (l.set i (l.get ⟨j, h.2⟩)).set j (l.get ⟨i, h.1⟩)
  else l

/-- The loop of `random.shuffle`: for `i` from `len-1` down to `1`, draw
`j < i+1` and swap positions `i` and `j`. -/
def fyAux : List α → Nat → Nat → List α × Nat
  | l, g, 0 => (l, g)
  | l, g, i+1 =>
    let r := randBelow (i + 2) g
    fyAux (lswap l (i + 1) r.1) r.2 i

/-- Embeds `rng.shuffle`, returning the permuted list and the advanced
generator state (the generator is shared across the up-to-three shuffles of
one run). -/
def pyShuffle (l : List α) (g : Nat) : List α × Nat := fyAux l g (l.length - 1)

/- ## `build_lexicon.py`: core -/

/-- A fatal condition: the process exits before the output file is written. -/
inductive BuildError where
  /-- No input files resolved (`sys.exit(2)`). -/
  | noInputFiles : BuildError
  /-- Insufficient unique tokens for the requested target without
  `--allow-duplicates` (`sys.exit(3)`); the error message states the requested
  target and the available unique count, carried here as payload. -/
  | insufficientTokens (target : Nat) (available : Nat) : BuildError
  /-- Uncaught `ZeroDivisionError` from `i % len(base_words)` when the unique
  pool is empty (interpreter exits with code 1). -/
  | zeroDivisionError : BuildError
  deriving DecidableEq, Repr

/-- The exit code of each fatal condition. -/
def exitCode : BuildError → Nat
  | .noInputFiles => 2
  | .insufficientTokens _ _ => 3
  | .zeroDivisionError => 1

/-- The padding list comprehension
`[base_words[i % len(base_words)] for i in range(deficit)]`. -/
def paddingSeq (base : List Token) (deficit : Nat) : List Token :=
  (List.range deficit).map (fun i => base.getD (i % base.length) [])

/-- The state of `base_words` and of the generator right after the
`rng.shuffle(base_words)` line: the seeded shuffle of the unique sequence. -/
def shuffledUnique (cfg : Config) (files : List PyStr)
    (extras : Option (List PyStr)) : List Token × Nat :=
  pyShuffle (uniqueSeq cfg files extras) (mkRng cfg.seed)

/-- The duplicate-completion stage for target `t`: build the padding by
cycling through the shuffled unique sequence, shuffle the padding with the
ongoing generator, concatenate after the unique sequence, shuffle once more. -/
def padStage (cfg : Config) (files : List PyStr) (extras : Option (List PyStr))
    (t : Nat) : List Token :=
  let s1 := shuffledUnique cfg files extras
  let s2 := pyShuffle (paddingSeq s1.1 (t - s1.1.length)) s1.2
  (pyShuffle (s1.1 ++ s2.1) s2.2).1

/-- Embeds `build_lexicon` on the resolved input files' contents: dedup, merge
extras, shuffle with the seeded generator, apply the target policy. An `ok`
value is the final `lex` list handed to the writer; an `error` value is a
process exit before any write. -/
def build_lexicon (cfg : Config) (files : List PyStr)
    (extras : Option (List PyStr)) : Except BuildError (List Token) :=
  if files.isEmpty then .error .noInputFiles
  else
    let s1 := shuffledUnique cfg files extras
    match cfg.target with
    | none => .ok s1.1
    | some t =>
      if t ≤ s1.1.length then .ok (s1.1.take t)
      else if cfg.allowDuplicates = false then
        .error (.insufficientTokens t s1.1.length)
      else if s1.1.length = 0 then .error .zeroDivisionError
      else .ok (padStage cfg files extras t)

/-- The bytes of the output file the writer produces (one token per line),
`none` when the run exited before the write. -/
def outputFile (r : Except BuildError (List Token)) : Option PyStr :=
  match r with
  | .ok lex => some (lex.flatMap (fun w => w ++ ['\n']))
  | .error _ => none

/- ## `divine.py`: token loading and one generation run -/

/-- Embeds `load_tokens` on the lexicon file's lines: collect stripped
non-empty lines until `k` are gathered; exit with code 3 when the file holds
fewer. -/
def load_tokens (lines : List PyStr) (k : Nat) : Except Nat (List Token) :=
  let out := ((lines.map pyStrip).filter (fun t => !t.isEmpty)).take k
  if out.length < k then .error 3 else .ok out

/-- Embeds `selection_positions`: the 1-based positions `step, 2*step, ...`
up to `draws`. -/
def selection_positions (draws : Nat) (step : Nat) : List Nat :=
  (List.range (draws / step)).map (fun i => step * (i + 1))

/-- The `draws` successive `rng.randint(1, n)` draws of `run_once`, threading
the generator state. -/
def drawIndices (g : Nat) (n : Nat) : Nat → List Nat × Nat
  | 0 => ([], g)
  | d + 1 =>
    let r := randint 1 n g
    let rest := drawIndices r.2 n d
    (r.1 :: rest.1, rest.2)

/-- Embeds the index arithmetic of `run_once`: draw `draws` indices in
`[1, N]`, read `indices[p-1]` at each selection position `p`, and read
`base[i-1]` for the selected words and for every printed paragraph word. Each
list access is through `get?`; a `none` result models an uncaught
`IndexError` (or the `ValueError` of `randint(1, 0)` on an empty base). -/
def run_once (base : List Token) (seed : Nat) (draws : Nat) :
    Option (List Token × List Token) :=
  if base.length = 0 then none
  else
    let indices := (drawIndices (mkRng seed) base.length draws).1
    let selPos := selection_positions draws 7
    match selPos.mapM (fun p => indices.get? (p - 1)) with
    | none => none
    | some chosenIdx =>
      match chosenIdx.mapM (fun i => base.get? (i - 1)) with
      | none => none
      | some chosenWords =>
        match indices.mapM (fun i => base.get? (i - 1)) with
        | none => none
        | some para => some (para, chosenWords)

/- ## Permutation facts about the modelled shuffle -/

/-- Moving the element at position `m` to the front while writing `x` at
position `m` permutes consing `x` at the front. -/
theorem get_cons_set_perm {α : Type} :
    ∀ (l : List α) (m : Nat) (hm : m < l.length) (x : α),
      List.Perm (l.get ⟨m, hm⟩ :: l.set m x) (x :: l)
  | a :: t, 0, _, x => List.Perm.swap x a t
  | a :: t, m + 1, hm, x => by
    have hm' : m < t.length := Nat.lt_of_succ_lt_succ (by simpa using hm)
    show List.Perm (t.get ⟨m, hm'⟩ :: a :: t.set m x) (x :: a :: t)
    exact ((List.Perm.swap a _ _).trans
      (((get_cons_set_perm t m hm' x)).cons a)).trans (List.Perm.swap x a t)

/-- An in-bounds two-position swap is a permutation. -/
theorem set_set_perm {α : Type} :
    ∀ (l : List α) (i j : Nat) (hi : i < l.length) (hj : j < l.length),
      List.Perm ((l.set i (l.get ⟨j, hj⟩)).set j (l.get ⟨i, hi⟩)) l
  | a :: t, 0, 0, _, _ => by
    show List.Perm (a :: t) (a :: t)
    exact List.Perm.refl _
  | a :: t, 0, j + 1, _, hj => by
    have hj' : j < t.length := Nat.lt_of_succ_lt_succ (by simpa using hj)
    show List.Perm (t.get ⟨j, hj'⟩ :: t.set j a) (a :: t)
    exact get_cons_set_perm t j hj' a
  | a :: t, i + 1, 0, hi, _ => by
    have hi' : i < t.length := Nat.lt_of_succ_lt_succ (by simpa using hi)
    show List.Perm (t.get ⟨i, hi'⟩ :: t.set i a) (a :: t)
    exact get_cons_set_perm t i hi' a
  | a :: t, i + 1, j + 1, hi, hj => by
    have hi' : i < t.length := Nat.lt_of_succ_lt_succ (by simpa using hi)
    have hj' : j < t.length := Nat.lt_of_succ_lt_succ (by simpa using hj)
    show List.Perm (a :: (t.set i (t.get ⟨j, hj'⟩)).set j (t.get ⟨i, hi'⟩)) (a :: t)
    exact (set_set_perm t i j hi' hj').cons a

/-- `lswap` is a permutation. -/
theorem lswap_perm {α : Type} (l : List α) (i j : Nat) :
    List.Perm (lswap l i j) l := by
  unfold lswap
  split
  case isTrue h => exact set_set_perm l i j h.1 h.2
  case isFalse => exact List.Perm.refl _

/-- Every state of the Fisher-Yates loop is a permutation of its input. -/
theorem fyAux_perm {α : Type} (i : Nat) :
    ∀ (l : List α) (g : Nat), List.Perm (fyAux l g i).1 l := by
  induction i with
  | zero => intro l g; exact List.Perm.refl l
  | succ n ih => intro l g; exact (ih _ _).trans (lswap_perm l (n + 1) _)

/-- The modelled `rng.shuffle` permutes its input. -/
theorem pyShuffle_perm {α : Type} (l : List α) (g : Nat) :
    List.Perm (pyShuffle l g).1 l :=
  fyAux_perm _ l g

/-- Shuffling preserves length. -/
theorem pyShuffle_length {α : Type} (l : List α) (g : Nat) :
    (pyShuffle l g).1.length = l.length :=
  (pyShuffle_perm l g).length_eq

/-- Shuffling preserves membership. -/
theorem pyShuffle_mem {α : Type} {a : α} {l : List α} {g : Nat} :
    a ∈ (pyShuffle l g).1 ↔ a ∈ l :=
  (pyShuffle_perm l g).mem_iff

/-- Shuffling preserves freedom from duplicates. -/
theorem pyShuffle_nodup {α : Type} {l : List α} (g : Nat) (h : l.Nodup) :
    (pyShuffle l g).1.Nodup :=
  (pyShuffle_perm l g).symm.nodup h

/- ## Ordered de-duplication facts -/

/-- The `setdefault` fold appends exactly the not-yet-seen tokens, in
encounter order, never touching the accumulated front and never introducing a
duplicate. -/
theorem foldl_insertUnique_spec (ws : List Token) : ∀ base : List Token,
    ∃ ap : List Token, ws.foldl insertUnique base = base ++ ap ∧
      ap.Sublist ws ∧ (∀ w ∈ ap, w ∉ base) ∧
      (base.Nodup → (base ++ ap).Nodup) := by
  induction ws with
  | nil =>
    intro base
    exact ⟨[], by simp, List.Sublist.refl _, by simp, fun h => by simpa⟩
  | cons w rest ih =>
    intro base
    rw [List.foldl_cons]
    by_cases hw : w ∈ base
    · have hins : insertUnique base w = base := by simp [insertUnique, hw]
      obtain ⟨ap, h1, h2, h3, h4⟩ := ih base
      exact ⟨ap, by rw [hins, h1], h2.cons w, h3, h4⟩
    · have hins : insertUnique base w = base ++ [w] := by simp [insertUnique, hw]
      obtain ⟨ap, h1, h2, h3, h4⟩ := ih (base ++ [w])
      refine ⟨w :: ap, ?_, List.Sublist.cons₂ w h2, ?_, ?_⟩
      · rw [hins, h1, List.append_assoc]
        rfl
      · intro v hv
        rcases List.mem_cons.mp hv with rfl | hv2
        · exact hw
        · intro hvb
          exact h3 v hv2 (List.mem_append_left _ hvb)
      · intro hb
        have hbw : (base ++ [w]).Nodup := by
          simp [List.nodup_append, hb, hw]
        have h5 := h4 hbw
        rw [List.append_assoc] at h5
        simpa using h5

/-- The corpus reading loop keeps the accumulated unique list duplicate-free. -/
theorem corpus_fold_nodup (cfg : Config) (files : List PyStr) :
    ∀ acc : List Token, acc.Nodup →
      (files.foldl (fun seen txt => (fileTokens cfg txt).foldl insertUnique seen)
        acc).Nodup := by
  induction files with
  | nil => intro acc h; exact h
  | cons f rest ih =>
    intro acc h
    rw [List.foldl_cons]
    apply ih
    obtain ⟨ap, h1, _, _, h4⟩ := foldl_insertUnique_spec (fileTokens cfg f) acc
    rw [h1]
    exact h4 h

/-- The unique corpus sequence has no duplicates. -/
theorem corpusUnique_nodup (cfg : Config) (files : List PyStr) :
    (corpusUnique cfg files).Nodup :=
  corpus_fold_nodup cfg files [] List.nodup_nil

/-- The merged unique sequence has no duplicates. -/
theorem uniqueSeq_nodup (cfg : Config) (files : List PyStr)
    (extras : Option (List PyStr)) : (uniqueSeq cfg files extras).Nodup := by
  cases extras with
  | none => exact corpusUnique_nodup cfg files
  | some ls =>
    show (List.foldl insertUnique (corpusUnique cfg files)
      (load_extras cfg ls)).Nodup
    obtain ⟨ap, h1, _, _, h4⟩ :=
      foldl_insertUnique_spec (load_extras cfg ls) (corpusUnique cfg files)
    rw [h1]
    exact h4 (corpusUnique_nodup cfg files)

/-- The corpus-then-extras merge only ever appends after the corpus sequence. -/
theorem uniqueSeq_extends_corpus (cfg : Config) (files : List PyStr)
    (extras : Option (List PyStr)) :
    ∃ ap, uniqueSeq cfg files extras = corpusUnique cfg files ++ ap := by
  cases extras with
  | none => exact ⟨[], by simp [uniqueSeq]⟩
  | some ls =>
    obtain ⟨ap, h1, _, _, _⟩ :=
      foldl_insertUnique_spec (load_extras cfg ls) (corpusUnique cfg files)
    exact ⟨ap, h1⟩

/- ## Character-table facts -/

/-- A successful association-list lookup exhibits a member pair. -/
theorem lookup_some_mem {β : Type} (ps : List (Char × β)) (a : Char) (b : β)
    (h : ps.lookup a = some b) : (a, b) ∈ ps := by
  induction ps with
  | nil => simp [List.lookup] at h
  | cons p rest ih =>
    obtain ⟨k, v⟩ := p
    rw [List.lookup_cons] at h
    split at h
    · next heq =>
      simp at heq
      cases h
      simp [heq]
    · exact List.mem_cons_of_mem _ (ih h)

/-- Every character produced by a modelled NFKD decomposition is itself
NFKD-normal (has no further decomposition). -/
theorem nfkd_values_normal :
    ∀ p ∈ nfkdTable, ∀ e ∈ p.2, nfkdTable.lookup e = none := by decide

/-- Lowercasing targets are caseless for the modelled repertoire. -/
theorem lower_target_not_key :
    ∀ p ∈ lowerTable, lowerTable.lookup p.2 = none := by decide

/-- Lowercasing maps letters to letters. -/
theorem lower_target_alpha :
    ∀ p ∈ lowerTable, pyIsAlpha p.2 = true := by decide

/-- Lowercasing never produces a combining mark. -/
theorem lower_target_not_combining :
    ∀ p ∈ lowerTable, isCombining p.2 = false := by decide

/-- Lowercasing an NFKD-normal character yields an NFKD-normal character. -/
theorem lower_preserves_nfkd_normal :
    ∀ p ∈ lowerTable, nfkdTable.lookup p.1 = none →
      nfkdTable.lookup p.2 = none := by decide

/-- Characters with no table entry decompose to themselves. -/
theorem nfkdChar_eq_of_lookup_none {c : Char} (h : nfkdTable.lookup c = none) :
    nfkdChar c = [c] := by
  unfold nfkdChar
  rw [h]

/-- Every character of a modelled NFKD decomposition result is NFKD-normal. -/
theorem mem_nfkdChar_normal {c d : Char} (hd : d ∈ nfkdChar c) :
    nfkdTable.lookup d = none := by
  cases h : nfkdTable.lookup c with
  | none =>
    rw [nfkdChar_eq_of_lookup_none h] at hd
    simp at hd
    subst hd
    exact h
  | some l =>
    have hdl : d ∈ l := by
      unfold nfkdChar at hd
      rw [h] at hd
      exact hd
    exact nfkd_values_normal _ (lookup_some_mem _ _ _ h) d hdl

/-- Characters surviving `_strip_accents` are NFKD-normal non-combining. -/
theorem mem_stripAccents_props {s : PyStr} {d : Char} (hd : d ∈ stripAccents s) :
    nfkdTable.lookup d = none ∧ isCombining d = false := by
  obtain ⟨hmem, hcomb⟩ := List.mem_filter.mp hd
  obtain ⟨e, _, hde⟩ := List.mem_flatMap.mp hmem
  refine ⟨mem_nfkdChar_normal hde, ?_⟩
  simpa using hcomb

/-- Lowercasing a kept, NFKD-normal, non-combining character preserves all
the properties the second normalization pass tests. -/
theorem pyToLower_props {d : Char} (hnf : nfkdTable.lookup d = none)
    (hcomb : isCombining d = false) (kh : Bool) (hkeep : keepChar d kh = true) :
    nfkdTable.lookup (pyToLower d) = none ∧
    isCombining (pyToLower d) = false ∧
    keepChar (pyToLower d) kh = true ∧
    lowerTable.lookup (pyToLower d) = none := by
  cases hl : lowerTable.lookup d with
  | none =>
    have hfix : pyToLower d = d := by
      unfold pyToLower
      rw [hl]
    rw [hfix]
    exact ⟨hnf, hcomb, hkeep, hl⟩
  | some c =>
    have hpd : pyToLower d = c := by
      unfold pyToLower
      rw [hl]
    have hmem := lookup_some_mem _ _ _ hl
    rw [hpd]
    refine ⟨lower_preserves_nfkd_normal _ hmem hnf,
      lower_target_not_combining _ hmem, ?_, lower_target_not_key _ hmem⟩
    have halpha := lower_target_alpha _ hmem
    unfold keepChar
    simp [halpha]

/-- Every character of a normalized token is NFKD-normal, non-combining,
kept by the filter, and already lowercase. -/
theorem normalize_char_props {x : PyStr} {kh : Bool} {c : Char}
    (hc : c ∈ normalize_token x kh) :
    nfkdTable.lookup c = none ∧ isCombining c = false ∧
    keepChar c kh = true ∧ lowerTable.lookup c = none := by
  have hc2 : c ∈ List.map pyToLower
      (List.filter (fun ch => keepChar ch kh) (stripAccents x)) := hc
  obtain ⟨d, hdmem, hdc⟩ := List.mem_map.mp hc2
  obtain ⟨hdstrip, hdkeep⟩ := List.mem_filter.mp hdmem
  obtain ⟨hnf, hcomb⟩ := mem_stripAccents_props hdstrip
  subst hdc
  exact pyToLower_props hnf hcomb kh hdkeep

/-- Lists of NFKD-normal characters are fixed by the decomposition pass. -/
theorem flatMap_nfkd_fixed : ∀ l : PyStr,
    (∀ c ∈ l, nfkdTable.lookup c = none) → l.flatMap nfkdChar = l := by
  intro l
  induction l with
  | nil => intro _; rfl
  | cons c t ih =>
    intro h
    rw [List.flatMap_cons, nfkdChar_eq_of_lookup_none (h c (by simp)),
      ih (fun d hd => h d (by simp [hd]))]
    rfl

/-- The filter of `_keep_char` admits exactly letters, plus the hyphen when
hyphens are kept. -/
theorem keepChar_iff (c : Char) (kh : Bool) :
    keepChar c kh = true ↔ (pyIsAlpha c = true ∨ (kh = true ∧ c = '-')) := by
  unfold keepChar
  rcases ha : pyIsAlpha c with _ | _
  · simp only [ha, Bool.false_eq_true, if_false, false_or]
    rcases hkh : kh with _ | _ <;> simp [beq_iff_eq]
  · simp [ha]

/-- Digits, underscores, apostrophes and whitespace are all dropped by the
filter, whatever the hyphen policy. -/
theorem dropped_chars (c : Char) (kh : Bool)
    (h : pyIsDigit c = true ∨ c = '_' ∨ c.toNat = 39 ∨ pyIsSpace c = true) :
    keepChar c kh = false := by
  have ht : (48 ≤ c.toNat ∧ c.toNat ≤ 57) ∨ c.toNat = 95 ∨ c.toNat = 39 ∨
      c.toNat = 32 ∨ c.toNat = 9 ∨ c.toNat = 10 ∨ c.toNat = 13 ∨
      c.toNat = 11 ∨ c.toNat = 12 := by
    rcases h with h | h | h | h
    · exact Or.inl (by simpa [pyIsDigit] using h)
    · subst h
      exact Or.inr (Or.inl rfl)
    · exact Or.inr (Or.inr (Or.inl h))
    · have h6 : ((((c = ' ' ∨ c = '\t') ∨ c = '\n') ∨ c.toNat = 13) ∨
          c.toNat = 11) ∨ c.toNat = 12 := by
        simpa [pyIsSpace, beq_iff_eq] using h
      rcases h6 with ((((h | h) | h) | h) | h) | h
      · subst h; exact Or.inr (Or.inr (Or.inr (Or.inl rfl)))
      · subst h; exact Or.inr (Or.inr (Or.inr (Or.inr (Or.inl rfl))))
      · subst h
        exact Or.inr (Or.inr (Or.inr (Or.inr (Or.inr (Or.inl rfl)))))
      · exact Or.inr (Or.inr (Or.inr (Or.inr (Or.inr (Or.inr (Or.inl h))))))
      · exact Or.inr (Or.inr (Or.inr (Or.inr (Or.inr (Or.inr (Or.inr
          (Or.inl h)))))))
      · exact Or.inr (Or.inr (Or.inr (Or.inr (Or.inr (Or.inr (Or.inr
          (Or.inr h)))))))
  have halpha : pyIsAlpha c = false := by
    rw [Bool.eq_false_iff]
    intro hcontra
    simp only [pyIsAlpha, Bool.or_eq_true, Bool.and_eq_true,
      decide_eq_true_eq, beq_iff_eq] at hcontra
    omega
  have hdash : c ≠ '-' := by
    intro heq
    subst heq
    have h45 : Char.toNat '-' = 45 := rfl
    rw [h45] at ht
    omega
  have hne : (c == '-') = false := by
    simpa [beq_eq_false_iff_ne] using hdash
  unfold keepChar
  simp [halpha, hne]

/- ## Claims about the normalizer -/

/-- C5 (amended): for every input string and hyphen flag, `normalize_token`
performs, in order: (a) *compatibility* (NFKD) decomposition of the string and
removal of all combining marks, (b) filtering that keeps only alphabetic
characters plus hyphens when `keep_hyphens` is true while dropping digits,
punctuation, underscores, apostrophes and whitespace, and (c)
locale-independent lowercasing of the result. (The claim's words "canonical
decomposition" does not match the code's NFKD call; see the counterexample.) -/
theorem claim_C5_normalizer_steps (tok : PyStr) (kh : Bool) :
    normalize_token tok kh =
      (((tok.flatMap nfkdChar).filter (fun ch => !(isCombining ch))).filter
        (fun ch => keepChar ch kh)).map pyToLower ∧
    (∀ c ∈ stripAccents tok, isCombining c = false) ∧
    (∀ c, keepChar c kh = true ↔ (pyIsAlpha c = true ∨ (kh = true ∧ c = '-'))) ∧
    (∀ c, pyIsDigit c = true ∨ c = '_' ∨ c.toNat = 39 ∨ pyIsSpace c = true →
      keepChar c kh = false) := by
  refine ⟨rfl, ?_, fun c => keepChar_iff c kh, fun c h => dropped_chars c kh h⟩
  intro c hc
  exact (mem_stripAccents_props hc).2

/-- C5 counterexample: on the fi ligature (which has a compatibility but no
canonical decomposition) the code's normalizer NFKD-decomposes and returns
`fi`, while the claim's step (a), canonical decomposition plus mark removal,
would leave the ligature intact; so step (a) is not canonical decomposition. -/
theorem claim_C5_counterexample :
    normalize_token [ligFi] false = ['f', 'i'] ∧
    normalize_token_canonical [ligFi] false = [ligFi] ∧
    normalize_token [ligFi] false ≠ normalize_token_canonical [ligFi] false := by
  refine ⟨by decide, by decide, by decide⟩

/-- C6: normalization is idempotent: renormalizing the output of
`normalize_token` under the same hyphen flag returns it unchanged, so every
string in the image of the normalizer is one of its fixed points. -/
theorem claim_C6_normalize_idempotent (x : PyStr) (kh : Bool) :
    normalize_token (normalize_token x kh) kh = normalize_token x kh := by
  have props := fun c (hc : c ∈ normalize_token x kh) => normalize_char_props hc
  show List.map pyToLower (List.filter (fun ch => keepChar ch kh)
    (stripAccents (normalize_token x kh))) = normalize_token x kh
  have h1 : (normalize_token x kh).flatMap nfkdChar = normalize_token x kh :=
    flatMap_nfkd_fixed _ (fun c hc => (props c hc).1)
  have h2 : stripAccents (normalize_token x kh) = normalize_token x kh := by
    unfold stripAccents
    rw [h1]
    exact List.filter_eq_self.mpr (fun c hc => by simp [(props c hc).2.1])
  rw [h2]
  rw [List.filter_eq_self.mpr (fun c hc => (props c hc).2.2.1)]
  have h4 : ∀ c ∈ normalize_token x kh, pyToLower c = id c := fun c hc => by
    unfold pyToLower
    rw [(props c hc).2.2.2]
    rfl
  rw [List.map_congr_left h4, List.map_id]

/- ## Build-pipeline stage facts -/

/-- The seeded shuffle of the unique sequence is one of its permutations. -/
theorem shuffledUnique_perm (cfg : Config) (files : List PyStr)
    (extras : Option (List PyStr)) :
    List.Perm (shuffledUnique cfg files extras).1 (uniqueSeq cfg files extras) :=
  pyShuffle_perm _ _

/-- The shuffle leaves the unique count unchanged. -/
theorem shuffledUnique_length (cfg : Config) (files : List PyStr)
    (extras : Option (List PyStr)) :
    (shuffledUnique cfg files extras).1.length =
      (uniqueSeq cfg files extras).length :=
  (shuffledUnique_perm cfg files extras).length_eq

/-- The shuffle leaves membership unchanged. -/
theorem shuffledUnique_mem {w : Token} (cfg : Config) (files : List PyStr)
    (extras : Option (List PyStr)) :
    w ∈ (shuffledUnique cfg files extras).1 ↔ w ∈ uniqueSeq cfg files extras :=
  (shuffledUnique_perm cfg files extras).mem_iff

/-- The shuffled unique sequence is duplicate-free. -/
theorem shuffledUnique_nodup (cfg : Config) (files : List PyStr)
    (extras : Option (List PyStr)) :
    (shuffledUnique cfg files extras).1.Nodup :=
  (shuffledUnique_perm cfg files extras).symm.nodup
    (uniqueSeq_nodup cfg files extras)

/-- The padding comprehension has exactly `deficit` elements. -/
theorem paddingSeq_length (base : List Token) (d : Nat) :
    (paddingSeq base d).length = d := by
  simp [paddingSeq]

/-- The `i`-th padding element is the base element at index `i mod len`. -/
theorem paddingSeq_get (base : List Token) (d i : Nat) (hi : i < d) :
    (paddingSeq base d).getD i [] = base.getD (i % base.length) [] := by
  have hlen : i < (paddingSeq base d).length := by
    simpa [paddingSeq_length] using hi
  rw [List.getD_eq_getElem _ _ hlen]
  simp [paddingSeq]

/-- Every padding element is drawn from the base sequence. -/
theorem paddingSeq_subset {base : List Token} {d : Nat}
    (h : base.length ≠ 0) : ∀ w ∈ paddingSeq base d, w ∈ base := by
  intro w hw
  simp only [paddingSeq, List.mem_map, List.mem_range] at hw
  obtain ⟨i, _, hwi⟩ := hw
  have hm : i % base.length < base.length :=
    Nat.mod_lt _ (Nat.pos_of_ne_zero h)
  rw [← hwi, List.getD_eq_getElem _ _ hm]
  exact List.getElem_mem hm

/-- With no input files the run exits with `NoInputFiles`. -/
theorem build_lexicon_no_files (cfg : Config) (extras : Option (List PyStr)) :
    build_lexicon cfg [] extras = .error .noInputFiles := rfl

/-- With no target the run emits the shuffled unique sequence. -/
theorem build_lexicon_no_target (cfg : Config) (files : List PyStr)
    (extras : Option (List PyStr)) (hf : files ≠ [])
    (ht : cfg.target = none) :
    build_lexicon cfg files extras = .ok (shuffledUnique cfg files extras).1 := by
  have hfe : files.isEmpty = false := by simp [hf]
  simp [build_lexicon, hfe, ht]

/-- With a reachable target the run truncates the shuffled unique sequence. -/
theorem build_lexicon_truncate (cfg : Config) (files : List PyStr)
    (extras : Option (List PyStr)) (t : Nat) (hf : files ≠ [])
    (ht : cfg.target = some t)
    (hlen : t ≤ (uniqueSeq cfg files extras).length) :
    build_lexicon cfg files extras =
      .ok ((shuffledUnique cfg files extras).1.take t) := by
  have hfe : files.isEmpty = false := by simp [hf]
  have hlen2 : t ≤ (shuffledUnique cfg files extras).1.length := by
    rw [shuffledUnique_length]
    exact hlen
  simp [build_lexicon, hfe, ht, hlen2]

/-- With an unreachable target and duplicates disallowed the run exits with
`InsufficientTokens`, reporting the requested and available counts. -/
theorem build_lexicon_insufficient (cfg : Config) (files : List PyStr)
    (extras : Option (List PyStr)) (t : Nat) (hf : files ≠ [])
    (ht : cfg.target = some t)
    (hlen : (uniqueSeq cfg files extras).length < t)
    (had : cfg.allowDuplicates = false) :
    build_lexicon cfg files extras =
      .error (.insufficientTokens t (uniqueSeq cfg files extras).length) := by
  have hfe : files.isEmpty = false := by simp [hf]
  have hlen2 : ¬ t ≤ (shuffledUnique cfg files extras).1.length := by
    rw [shuffledUnique_length]
    omega
  simp [build_lexicon, hfe, ht, hlen2, had, shuffledUnique_length]
  exact hlen

/-- With an unreachable target, duplicates allowed and an empty pool, the
padding comprehension divides by zero and the interpreter exits. -/
theorem build_lexicon_zero_pool (cfg : Config) (files : List PyStr)
    (extras : Option (List PyStr)) (t : Nat) (hf : files ≠ [])
    (ht : cfg.target = some t)
    (hn : (uniqueSeq cfg files extras).length = 0) (hlt : 0 < t)
    (had : cfg.allowDuplicates = true) :
    build_lexicon cfg files extras = .error .zeroDivisionError := by
  have hfe : files.isEmpty = false := by simp [hf]
  have hlen2 : ¬ t ≤ (shuffledUnique cfg files extras).1.length := by
    rw [shuffledUnique_length]
    omega
  have hn2 : (shuffledUnique cfg files extras).1.length = 0 := by
    rw [shuffledUnique_length]
    exact hn
  simp [build_lexicon, hfe, ht, hlen2, had, hn2]
  omega

/-- With an unreachable target, duplicates allowed and a non-empty pool, the
run completes with the duplicate-padding stage. -/
theorem build_lexicon_pad (cfg : Config) (files : List PyStr)
    (extras : Option (List PyStr)) (t : Nat) (hf : files ≠ [])
    (ht : cfg.target = some t)
    (hn : (uniqueSeq cfg files extras).length ≠ 0)
    (hlen : (uniqueSeq cfg files extras).length < t)
    (had : cfg.allowDuplicates = true) :
    build_lexicon cfg files extras = .ok (padStage cfg files extras t) := by
  have hfe : files.isEmpty = false := by simp [hf]
  have hlen2 : ¬ t ≤ (shuffledUnique cfg files extras).1.length := by
    rw [shuffledUnique_length]
    omega
  have hn2 : ¬ (shuffledUnique cfg files extras).1.length = 0 := by
    rw [shuffledUnique_length]
    exact hn
  simp [build_lexicon, hfe, ht, hlen2, had, hn2]

/-- The duplicate-padding stage permutes the shuffled uniques plus the
shuffled padding. -/
theorem padStage_perm (cfg : Config) (files : List PyStr)
    (extras : Option (List PyStr)) (t : Nat) :
    List.Perm (padStage cfg files extras t)
      ((shuffledUnique cfg files extras).1 ++
        (pyShuffle (paddingSeq (shuffledUnique cfg files extras).1
          (t - (shuffledUnique cfg files extras).1.length))
          (shuffledUnique cfg files extras).2).1) :=
  pyShuffle_perm _ _

/-- Every element of the duplicate-padding stage is a unique token. -/
theorem padStage_mem (cfg : Config) (files : List PyStr)
    (extras : Option (List PyStr)) (t : Nat)
    (hn : (uniqueSeq cfg files extras).length ≠ 0) :
    ∀ w ∈ padStage cfg files extras t, w ∈ uniqueSeq cfg files extras := by
  intro w hw
  have hw1 := (padStage_perm cfg files extras t).subset hw
  rcases List.mem_append.mp hw1 with h | h
  · exact (shuffledUnique_mem cfg files extras).mp h
  · have h2 := (pyShuffle_perm _ _).subset h
    have hn2 : (shuffledUnique cfg files extras).1.length ≠ 0 := by
      rw [shuffledUnique_length]
      exact hn
    have h3 := paddingSeq_subset hn2 w h2
    exact (shuffledUnique_mem cfg files extras).mp h3

/-- The duplicate-padding stage has exactly `target` elements whenever the
unique pool falls short of the target. -/
theorem padStage_length (cfg : Config) (files : List PyStr)
    (extras : Option (List PyStr)) (t : Nat)
    (hlen : (uniqueSeq cfg files extras).length ≤ t) :
    (padStage cfg files extras t).length = t := by
  have h1 := (padStage_perm cfg files extras t).length_eq
  rw [List.length_append] at h1
  rw [h1, (pyShuffle_perm _ _).length_eq, paddingSeq_length,
    shuffledUnique_length]
  omega

/- ## Claims about the build pipeline -/

/-- C1: no fabrication: whenever a run writes an output, every output line is
an exact member of the unique normalized token set built from the inputs plus
extras; duplicates can only be exact copies of admitted tokens. -/
theorem claim_C1_no_fabrication (cfg : Config) (files : List PyStr)
    (extras : Option (List PyStr)) (lex : List Token)
    (h : build_lexicon cfg files extras = .ok lex) :
    ∀ w ∈ lex, w ∈ uniqueSeq cfg files extras := by
  intro w hw
  by_cases hf : files = []
  · subst hf
    rw [build_lexicon_no_files] at h
    simp at h
  cases ht : cfg.target with
  | none =>
    rw [build_lexicon_no_target cfg files extras hf ht] at h
    simp only [Except.ok.injEq] at h
    subst h
    exact (shuffledUnique_mem cfg files extras).mp hw
  | some t =>
    by_cases hlen : t ≤ (uniqueSeq cfg files extras).length
    · rw [build_lexicon_truncate cfg files extras t hf ht hlen] at h
      simp only [Except.ok.injEq] at h
      subst h
      exact (shuffledUnique_mem cfg files extras).mp
        (List.take_subset t _ hw)
    · push_neg at hlen
      cases had : cfg.allowDuplicates with
      | false =>
        rw [build_lexicon_insufficient cfg files extras t hf ht hlen had] at h
        simp at h
      | true =>
        by_cases hn : (uniqueSeq cfg files extras).length = 0
        · rw [build_lexicon_zero_pool cfg files extras t hf ht hn
            (by omega) had] at h
          simp at h
        · rw [build_lexicon_pad cfg files extras t hf ht hn hlen had] at h
          simp only [Except.ok.injEq] at h
          subst h
          exact padStage_mem cfg files extras t hn w hw

/-- C1 witness: a concrete run whose output lines all come from the unique
token set. -/
theorem claim_C1_no_fabrication_witness :
    build_lexicon (Config.mk false 2 32 none 333 false)
        [("hello world hello".data)] none =
      .ok [("world".data), ("hello".data)] ∧
    ("world".data) ∈ uniqueSeq (Config.mk false 2 32 none 333 false)
      [("hello world hello".data)] none :=
  ⟨rfl, claim_C1_no_fabrication (Config.mk false 2 32 none 333 false)
    [("hello world hello".data)] none [("world".data), ("hello".data)] rfl
    ("world".data) (by simp)⟩

/-- C2: determinism: two runs with byte-identical resolved input contents, the
same extras, and identical configuration (hyphen policy, length bounds,
target, duplicate policy and seed) produce the same result and byte-identical
output files. -/
theorem claim_C2_determinism (cfg₁ cfg₂ : Config)
    (files₁ files₂ : List PyStr) (extras₁ extras₂ : Option (List PyStr))
    (hc : cfg₁ = cfg₂) (hfi : files₁ = files₂) (he : extras₁ = extras₂) :
    build_lexicon cfg₁ files₁ extras₁ = build_lexicon cfg₂ files₂ extras₂ ∧
    outputFile (build_lexicon cfg₁ files₁ extras₁) =
      outputFile (build_lexicon cfg₂ files₂ extras₂) := by
  subst hc
  subst hfi
  subst he
  exact ⟨rfl, rfl⟩

/-- C2 witness: the two hypotheses hold trivially at one concrete run, and
the conclusion follows by the theorem. -/
theorem claim_C2_determinism_witness :
    outputFile (build_lexicon (Config.mk false 2 32 none 7 false)
        [("alpha beta".data)] none) =
      outputFile (build_lexicon (Config.mk false 2 32 none 7 false)
        [("alpha beta".data)] none) :=
  (claim_C2_determinism _ _ _ _ _ _ rfl rfl rfl).2

/-- C3 (amended): with `--target T` and at least `T` unique tokens, the output
is exactly the first `T` elements of the seeded shuffle of the unique
sequence, hence exactly `T` lines; with fewer than `T` unique tokens,
`--allow-duplicates`, *and at least one unique token*, the output also has
exactly `T` lines. (The unamended claim fails when the unique pool is empty:
the padding comprehension then divides by zero; see the counterexample.) -/
theorem claim_C3_size_contract (cfg : Config) (files : List PyStr)
    (extras : Option (List PyStr)) (t : Nat) (hf : files ≠ [])
    (ht : cfg.target = some t) :
    (t ≤ (uniqueSeq cfg files extras).length →
      build_lexicon cfg files extras =
        .ok ((shuffledUnique cfg files extras).1.take t) ∧
      ((shuffledUnique cfg files extras).1.take t).length = t) ∧
    ((uniqueSeq cfg files extras).length < t →
      1 ≤ (uniqueSeq cfg files extras).length →
      cfg.allowDuplicates = true →
      build_lexicon cfg files extras = .ok (padStage cfg files extras t) ∧
      (padStage cfg files extras t).length = t) := by
  constructor
  · intro hlen
    refine ⟨build_lexicon_truncate cfg files extras t hf ht hlen, ?_⟩
    rw [List.length_take, shuffledUnique_length]
    omega
  · intro hlen hn had
    refine ⟨build_lexicon_pad cfg files extras t hf ht (by omega) hlen had, ?_⟩
    exact padStage_length cfg files extras t (by omega)

/-- C3 counterexample: a run with a non-empty input file but an empty unique
pool (the file holds only digits), `--target 5` and `--allow-duplicates`: the
claim promises an output of exactly 5 lines, but the run aborts with a
`ZeroDivisionError` and writes nothing. -/
theorem claim_C3_counterexample :
    (uniqueSeq (Config.mk false 2 32 (some 5) 1 true) [("42 99".data)]
        none).length < 5 ∧
    (Config.mk false 2 32 (some 5) 1 true).allowDuplicates = true ∧
    build_lexicon (Config.mk false 2 32 (some 5) 1 true) [("42 99".data)]
        none = .error .zeroDivisionError ∧
    outputFile (build_lexicon (Config.mk false 2 32 (some 5) 1 true)
        [("42 99".data)] none) = none :=
  ⟨by decide, rfl, rfl, rfl⟩

/-- C3 witness: both branches of the amended size contract at concrete runs:
truncation to 2 lines out of 3 uniques, and padding 3 uniques up to 5. -/
theorem claim_C3_size_contract_witness :
    (2 ≤ (uniqueSeq (Config.mk false 2 32 (some 2) 1 false)
        [("aa bb cc".data)] none).length ∧
      build_lexicon (Config.mk false 2 32 (some 2) 1 false)
        [("aa bb cc".data)] none =
        .ok ((shuffledUnique (Config.mk false 2 32 (some 2) 1 false)
          [("aa bb cc".data)] none).1.take 2)) ∧
    ((uniqueSeq (Config.mk false 2 32 (some 5) 1 true)
        [("aa bb cc".data)] none).length < 5 ∧
      (padStage (Config.mk false 2 32 (some 5) 1 true) [("aa bb cc".data)]
        none 5).length = 5) :=
  ⟨⟨by decide,
    ((claim_C3_size_contract (Config.mk false 2 32 (some 2) 1 false)
      [("aa bb cc".data)] none 2 (by simp) rfl).1 (by decide)).1⟩,
   ⟨by decide,
    ((claim_C3_size_contract (Config.mk false 2 32 (some 5) 1 true)
      [("aa bb cc".data)] none 5 (by simp) rfl).2 (by decide) (by decide)
      rfl).2⟩⟩

/-- C4: fatal-error contract: with zero resolved input files the run exits
with code 2 and writes nothing; with a target above the unique count and no
`--allow-duplicates` it exits with code 3, its error payload carrying both
the requested target and the available count, and writes nothing. In the
model an `error` result is an exit taken before the writer runs. -/
theorem claim_C4_fatal_errors (cfg : Config) (files : List PyStr)
    (extras : Option (List PyStr)) :
    (files = [] →
      build_lexicon cfg files extras = .error .noInputFiles ∧
      exitCode .noInputFiles = 2 ∧
      outputFile (build_lexicon cfg files extras) = none) ∧
    (∀ t, files ≠ [] → cfg.target = some t →
      (uniqueSeq cfg files extras).length < t →
      cfg.allowDuplicates = false →
      build_lexicon cfg files extras =
        .error (.insufficientTokens t (uniqueSeq cfg files extras).length) ∧
      exitCode (.insufficientTokens t (uniqueSeq cfg files extras).length)
        = 3 ∧
      outputFile (build_lexicon cfg files extras) = none) := by
  constructor
  · intro hf
    subst hf
    exact ⟨rfl, rfl, rfl⟩
  · intro t hf ht hlen had
    have hb := build_lexicon_insufficient cfg files extras t hf ht hlen had
    exact ⟨hb, rfl, by rw [hb]; rfl⟩

/-- C4 witness: both fatal branches at concrete runs. -/
theorem claim_C4_fatal_errors_witness :
    build_lexicon (Config.mk false 2 32 none 333 false) [] none =
      .error .noInputFiles ∧
    build_lexicon (Config.mk false 2 32 (some 9) 1 false)
        [("aa bb cc".data)] none =
      .error (.insufficientTokens 9 3) := by
  constructor
  · exact ((claim_C4_fatal_errors (Config.mk false 2 32 none 333 false)
      [] none).1 rfl).1
  · have h := ((claim_C4_fatal_errors (Config.mk false 2 32 (some 9) 1 false)
      [("aa bb cc".data)] none).2 9 (by simp) rfl (by decide) rfl).1
    have hlen : (uniqueSeq (Config.mk false 2 32 (some 9) 1 false)
        [("aa bb cc".data)] none).length = 3 := by decide
    rw [hlen] at h
    exact h

/-- C7 (amended): whenever the unique count `n` satisfies `1 ≤ n < target`
and `--allow-duplicates` is given, the padding has length `target - n`, its
`i`-th element (before its own shuffle) is the shuffled unique sequence's
element at index `i mod n`, the output permutes the unique sequence followed
by the (shuffled) padding after one final shuffle, and every unique token
appears at least once in the final output. (The unamended claim also covers
`n = 0`, where the run instead crashes; see the counterexample.) -/
theorem claim_C7_duplicate_padding (cfg : Config) (files : List PyStr)
    (extras : Option (List PyStr)) (t : Nat) (hf : files ≠ [])
    (ht : cfg.target = some t) (hn : 1 ≤ (uniqueSeq cfg files extras).length)
    (hlt : (uniqueSeq cfg files extras).length < t)
    (had : cfg.allowDuplicates = true) :
    (paddingSeq (shuffledUnique cfg files extras).1
        (t - (uniqueSeq cfg files extras).length)).length =
      t - (uniqueSeq cfg files extras).length ∧
    (∀ i < t - (uniqueSeq cfg files extras).length,
      (paddingSeq (shuffledUnique cfg files extras).1
          (t - (uniqueSeq cfg files extras).length)).getD i [] =
        (shuffledUnique cfg files extras).1.getD
          (i % (uniqueSeq cfg files extras).length) []) ∧
    build_lexicon cfg files extras = .ok (padStage cfg files extras t) ∧
    List.Perm (padStage cfg files extras t)
      ((shuffledUnique cfg files extras).1 ++
        (pyShuffle (paddingSeq (shuffledUnique cfg files extras).1
          (t - (shuffledUnique cfg files extras).1.length))
          (shuffledUnique cfg files extras).2).1) ∧
    (∀ w ∈ uniqueSeq cfg files extras, w ∈ padStage cfg files extras t) := by
  refine ⟨paddingSeq_length _ _, ?_, ?_, padStage_perm cfg files extras t, ?_⟩
  · intro i hi
    have h := paddingSeq_get (shuffledUnique cfg files extras).1
      (t - (uniqueSeq cfg files extras).length) i hi
    rw [shuffledUnique_length] at h
    exact h
  · exact build_lexicon_pad cfg files extras t hf ht (by omega) hlt had
  · intro w hw
    exact (padStage_perm cfg files extras t).mem_iff.mpr
      (List.mem_append_left _
        ((shuffledUnique_mem cfg files extras).mpr hw))

/-- C7 counterexample: with an empty unique pool (digit-only input), a target
and `--allow-duplicates`, no padding is ever built: the padding comprehension
divides by zero and the run aborts, so the claimed padding construction and
full-coverage output do not exist for `n = 0`. -/
theorem claim_C7_counterexample :
    (uniqueSeq (Config.mk false 2 32 (some 7) 2 true) [("123 456".data)]
        none).length = 0 ∧
    build_lexicon (Config.mk false 2 32 (some 7) 2 true) [("123 456".data)]
        none = .error .zeroDivisionError :=
  ⟨by decide, rfl⟩

/-- C7 witness: a concrete padded run: 3 uniques padded to 5 lines, with
every unique token present in the output. -/
theorem claim_C7_duplicate_padding_witness :
    build_lexicon (Config.mk false 2 32 (some 5) 4 true) [("aa bb cc".data)]
        none =
      .ok (padStage (Config.mk false 2 32 (some 5) 4 true) [("aa bb cc".data)]
        none 5) ∧
    ∀ w ∈ uniqueSeq (Config.mk false 2 32 (some 5) 4 true) [("aa bb cc".data)]
        none,
      w ∈ padStage (Config.mk false 2 32 (some 5) 4 true) [("aa bb cc".data)]
        none 5 := by
  have h := claim_C7_duplicate_padding (Config.mk false 2 32 (some 5) 4 true)
    [("aa bb cc".data)] none 5 (by simp) rfl (by decide) (by decide) rfl
  exact ⟨h.2.2.1, h.2.2.2.2⟩

/-- C8: extras merge: with no extras path the base sequence is unchanged;
otherwise each surviving extras token was obtained from a stripped non-empty
line by the same normalization and post-filter as corpus tokens, and exactly
the tokens absent from the base are appended, in file line order, after the
untouched base. -/
theorem claim_C8_extras_merge (cfg : Config) (files : List PyStr) :
    uniqueSeq cfg files none = corpusUnique cfg files ∧
    (∀ ls, ∃ ap,
      uniqueSeq cfg files (some ls) = corpusUnique cfg files ++ ap ∧
      ap.Sublist (load_extras cfg ls) ∧
      (∀ w ∈ ap, w ∉ corpusUnique cfg files)) ∧
    (∀ ls, ∀ w ∈ load_extras cfg ls,
      passes cfg w = true ∧
      ∃ line ∈ ls, w = normalize_token (pyStrip line) cfg.keepHyphens) := by
  refine ⟨rfl, ?_, ?_⟩
  · intro ls
    obtain ⟨ap, h1, h2, h3, _⟩ :=
      foldl_insertUnique_spec (load_extras cfg ls) (corpusUnique cfg files)
    exact ⟨ap, h1, h2, h3⟩
  · intro ls w hw
    obtain ⟨line, hline, hfl⟩ := List.mem_filterMap.mp hw
    simp only at hfl
    split at hfl
    · exact absurd hfl (by simp)
    · split at hfl
      · next hp =>
        simp only [Option.some.injEq] at hfl
        subst hfl
        exact ⟨hp, line, hline, rfl⟩
      · exact absurd hfl (by simp)

/-- C8 witness: a concrete merge: the base is returned unchanged without
extras, and with an extras file the new token is appended after the base. -/
theorem claim_C8_extras_merge_witness :
    uniqueSeq (Config.mk false 2 32 none 3 false) [("hello world".data)]
        none =
      corpusUnique (Config.mk false 2 32 none 3 false)
        [("hello world".data)] ∧
    ∃ ap,
      uniqueSeq (Config.mk false 2 32 none 3 false) [("hello world".data)]
          (some [(" zed ".data), ("hello".data)]) =
        corpusUnique (Config.mk false 2 32 none 3 false)
          [("hello world".data)] ++ ap ∧
      ap.Sublist (load_extras (Config.mk false 2 32 none 3 false)
        [(" zed ".data), ("hello".data)]) ∧
      (∀ w ∈ ap, w ∉ corpusUnique (Config.mk false 2 32 none 3 false)
        [("hello world".data)]) :=
  ⟨(claim_C8_extras_merge (Config.mk false 2 32 none 3 false)
      [("hello world".data)]).1,
   (claim_C8_extras_merge (Config.mk false 2 32 none 3 false)
      [("hello world".data)]).2.1 [(" zed ".data), ("hello".data)]⟩

/-- C9: uniqueness without a target: the run emits the shuffled unique
sequence, which has no duplicate lines and exactly as many lines as the
unique token set; the unique set itself admits each token at most once and
keeps the corpus's first-occurrence order as a prefix, extras appended. -/
theorem claim_C9_uniqueness_no_target (cfg : Config) (files : List PyStr)
    (extras : Option (List PyStr)) (hf : files ≠ []) (ht : cfg.target = none) :
    build_lexicon cfg files extras =
      .ok (shuffledUnique cfg files extras).1 ∧
    (shuffledUnique cfg files extras).1.Nodup ∧
    (shuffledUnique cfg files extras).1.length =
      (uniqueSeq cfg files extras).length ∧
    (uniqueSeq cfg files extras).Nodup ∧
    ∃ ap, uniqueSeq cfg files extras = corpusUnique cfg files ++ ap :=
  ⟨build_lexicon_no_target cfg files extras hf ht,
   shuffledUnique_nodup cfg files extras,
   shuffledUnique_length cfg files extras,
   uniqueSeq_nodup cfg files extras,
   uniqueSeq_extends_corpus cfg files extras⟩

/-- C9 witness: a concrete no-target run with a duplicate-free output. -/
theorem claim_C9_uniqueness_no_target_witness :
    build_lexicon (Config.mk false 2 32 none 11 false)
        [("zz ww zz yy".data)] none =
      .ok (shuffledUnique (Config.mk false 2 32 none 11 false)
        [("zz ww zz yy".data)] none).1 ∧
    (shuffledUnique (Config.mk false 2 32 none 11 false)
        [("zz ww zz yy".data)] none).1.Nodup := by
  have h := claim_C9_uniqueness_no_target (Config.mk false 2 32 none 11 false)
    [("zz ww zz yy".data)] none (by simp) rfl
  exact ⟨h.1, h.2.1⟩

/- ## Facts about the sentence generator's index handling -/

/-- A successful `load_tokens` returns exactly `k` tokens. -/
theorem load_tokens_ok_length {lines : List PyStr} {k : Nat} {base : List Token}
    (h : load_tokens lines k = .ok base) : base.length = k := by
  have h2 : (if (List.take k (List.filter (fun t => !t.isEmpty)
        (List.map pyStrip lines))).length < k then
        (Except.error 3 : Except Nat (List Token))
      else .ok (List.take k (List.filter (fun t => !t.isEmpty)
        (List.map pyStrip lines)))) = .ok base := h
  clear h
  rename' h2 => h
  split at h
  · exact absurd h (by simp)
  · next hge =>
    simp only [Except.ok.injEq] at h
    subst h
    exact Nat.le_antisymm (List.length_take_le k _) (Nat.not_lt.mp hge)

/-- `run_once` draws exactly `draws` indices. -/
theorem drawIndices_length (n : Nat) : ∀ (d : Nat) (g : Nat),
    ((drawIndices g n d).1).length = d := by
  intro d
  induction d with
  | zero => intro g; rfl
  | succ m ih =>
    intro g
    simp [drawIndices, ih]

/-- Every drawn index lies in `[1, n]` when the base is non-empty. -/
theorem drawIndices_bounds (n : Nat) (hn : 1 ≤ n) : ∀ (d : Nat) (g : Nat),
    ∀ i ∈ (drawIndices g n d).1, 1 ≤ i ∧ i ≤ n := by
  intro d
  induction d with
  | zero => intro g i hi; simp [drawIndices] at hi
  | succ m ih =>
    intro g i hi
    have hi1 : i ∈ (randint 1 n g).1 :: (drawIndices (randint 1 n g).2 n m).1 :=
      hi
    clear hi
    have hcase := List.mem_cons.mp hi1
    clear hi1
    rcases hcase with heq | hi3
    · have hmod : rngNext g % n < n := Nat.mod_lt _ (by omega)
      have hval : (randint 1 n g).1 = 1 + rngNext g % n := by
        simp [randint, randBelow]
      rw [heq, hval]
      omega
    · exact ih _ i hi3

/-- Every selection position lies in `[1, draws]`. -/
theorem selection_positions_bounds (draws : Nat) :
    ∀ p ∈ selection_positions draws 7, 1 ≤ p ∧ p ≤ draws := by
  intro p hp
  simp only [selection_positions, List.mem_map, List.mem_range] at hp
  obtain ⟨i, hi, rfl⟩ := hp
  have h3 : draws / 7 * 7 ≤ draws := Nat.div_mul_le_self draws 7
  constructor
  · omega
  · omega

/-- Mapping a total-on-its-inputs partial function over a list succeeds, and
every output value comes from an input. -/
theorem mapM_option_some {α β : Type} (f : α → Option β) :
    ∀ l : List α, (∀ a ∈ l, (f a).isSome = true) →
      ∃ ys, l.mapM f = some ys ∧ ∀ y ∈ ys, ∃ a ∈ l, f a = some y := by
  intro l
  induction l with
  | nil => intro _; exact ⟨[], rfl, by simp⟩
  | cons a rest ih =>
    intro h
    obtain ⟨y0, hy0⟩ := Option.isSome_iff_exists.mp (h a (by simp))
    obtain ⟨ys, hys, hmem⟩ := ih (fun b hb => h b (by simp [hb]))
    refine ⟨y0 :: ys, by rw [List.mapM_cons, hy0, hys]; rfl, ?_⟩
    intro y hy
    rcases List.mem_cons.mp hy with rfl | hy2
    · exact ⟨a, by simp, hy0⟩
    · obtain ⟨b, hb, hfb⟩ := hmem y hy2
      exact ⟨b, by simp [hb], hfb⟩

/-- In-bounds positions make `get?` succeed. -/
theorem get?_isSome_of_lt {α : Type} {l : List α} {n : Nat}
    (h : n < l.length) : (l.get? n).isSome = true := by
  cases hg : l.get? n with
  | none => exact absurd (List.get?_eq_none.mp hg) (by omega)
  | some a => rfl

/-- C10: index safety in the sentence generator: once `load_tokens` has
returned a base of exactly `k ≥ 1` tokens, every index drawn in `run_once`
lies in `1..k` inclusive, every selection position lies in `1..draws`, and
all `base[index - 1]` / `indices[position - 1]` accesses are in bounds, so
`run_once` completes without an out-of-range error. -/
theorem claim_C10_index_safety (lines : List PyStr) (k draws seed : Nat)
    (base : List Token) (hk : 1 ≤ k)
    (hload : load_tokens lines k = .ok base) :
    base.length = k ∧
    (∀ i ∈ (drawIndices (mkRng seed) base.length draws).1, 1 ≤ i ∧ i ≤ k) ∧
    (∀ p ∈ selection_positions draws 7, 1 ≤ p ∧ p ≤ draws) ∧
    (run_once base seed draws).isSome = true := by
  have hlen := load_tokens_ok_length hload
  have hbounds : ∀ i ∈ (drawIndices (mkRng seed) base.length draws).1,
      1 ≤ i ∧ i ≤ base.length :=
    drawIndices_bounds base.length (by omega) draws (mkRng seed)
  refine ⟨hlen, fun i hi => by have := hbounds i hi; omega,
    selection_positions_bounds draws, ?_⟩
  have hindlen : ((drawIndices (mkRng seed) base.length draws).1).length =
      draws := drawIndices_length _ _ _
  obtain ⟨chosenIdx, hci, hcimem⟩ := mapM_option_some
    (fun p => ((drawIndices (mkRng seed) base.length draws).1).get? (p - 1))
    (selection_positions draws 7) (fun p hp => by
      have hb := selection_positions_bounds draws p hp
      apply get?_isSome_of_lt
      omega)
  obtain ⟨chosenWords, hcw, _⟩ := mapM_option_some
    (fun i => base.get? (i - 1)) chosenIdx (fun i hi => by
      obtain ⟨p, _, hfp⟩ := hcimem i hi
      have himem := List.get?_mem hfp
      have hb := hbounds i himem
      apply get?_isSome_of_lt
      omega)
  obtain ⟨para, hpara, _⟩ := mapM_option_some
    (fun i => base.get? (i - 1))
    (drawIndices (mkRng seed) base.length draws).1 (fun i hi => by
      have hb := hbounds i hi
      apply get?_isSome_of_lt
      omega)
  have hne : ¬ base.length = 0 := by omega
  simp only [run_once, if_neg hne, hci, hcw, hpara]
  rfl

/-- C10 witness: a concrete base of 2 tokens and 7 draws: loading succeeds
with exactly 2 tokens and the run completes. -/
theorem claim_C10_index_safety_witness :
    load_tokens [("alpha".data), ("beta".data)] 2 =
      .ok [("alpha".data), ("beta".data)] ∧
    (run_once [("alpha".data), ("beta".data)] 5 7).isSome = true :=
  ⟨rfl, (claim_C10_index_safety [("alpha".data), ("beta".data)] 2 7 5
    [("alpha".data), ("beta".data)] (by decide) rfl).2.2.2⟩

end DG
